import Mathlib

/-!
Shallow embedding of the shipment-tracker core: the multi-source lookup
orchestrator (`src/main/carriers/registry.ts`), the IPC boundary
(`src/main/ipc-handlers.ts`) and the renderer-side reconciliation engine and
search session controller (`renderer.ts`).

Conventions of the embedding:
* JS strings that are used only through truthiness checks (`!x`, `x || y`) are
  modelled as `String` with `""` standing for both `undefined` and the empty
  string — the code never distinguishes the two for these fields.
* Timestamps (`Date.now()`) are `Nat` milliseconds.
* Parsed dates (`Date` objects compared via `getTime()`) are `Option Int`.
* Promise races are modelled by an explicit settle order: a list of indices
  into the carrier list giving the order in which the adapters' promises
  settle.  A promise that may never settle is an `Option`-wrapped outcome,
  `none` meaning the promise hangs forever.
-/

namespace ShipTrack

/-- `ContainerInfo` from `src/main/carriers/types.ts`; optional string fields
are `""` when absent. -/
structure ContainerInfo where
  containerNo : String
  sizeType : String
  sealNo : String
  serviceType : String
  quantity : String
  vgm : String
  currentStatus : String
  date : String
  location : String
  vesselVoyage : String
  latestMove : String
deriving DecidableEq

/-- `TrackingEvent` from `src/main/carriers/types.ts`. -/
structure TrackingEvent where
  date : String
  location : String
  event : String
  vesselVoyage : String
  terminal : String
  containerNo : String
deriving DecidableEq

/-- `PlanMove` from `src/main/carriers/types.ts`. -/
structure PlanMove where
  eta : String
  location : String
  vesselVoyage : String
deriving DecidableEq

/-- `TrackingResult` from `src/main/carriers/types.ts`. -/
structure TrackingResult where
  carrier : String
  trackingNo : String
  blNo : String
  vesselVoyage : String
  eta : String
  placeOfReceipt : String
  portOfLoading : String
  portOfDischarge : String
  placeOfDelivery : String
  shippedFrom : String
  shippedTo : String
  transshipments : String
  containerCount : String
  grossWeight : String
  measurement : String
  manifestQuantity : String
  onBoardDate : String
  serviceMode : String
  containers : List ContainerInfo
  events : List TrackingEvent
  planMoves : List PlanMove
  trackingUrl : String
  fetchedAt : Option Nat
deriving DecidableEq

/-! ## Reconciliation engine: `mergeResults` (renderer.ts) -/

/-- One step of the field-fill loop in `mergeResults`:
`if (!merged[f] && other[f]) merged[f] = other[f]`. -/
def mergeScalar (b o : String) : String :=
  if b = "" ∧ o ≠ "" then o else b

/-- The merge-base score: `[r.blNo, r.portOfLoading, r.placeOfReceipt,
r.portOfDischarge, r.placeOfDelivery].filter(Boolean).length`. -/
def scoreR (r : TrackingResult) : Nat :=
  ([r.blNo, r.portOfLoading, r.placeOfReceipt, r.portOfDischarge,
    r.placeOfDelivery].filter (· ≠ "")).length

/-- Container field merge `{...existing, ...Object.fromEntries(
Object.entries(c).filter(([, v]) => v))}`: every truthy field of `c` wins,
falsy fields keep `existing`'s value. -/
def mergeContainer (ex c : ContainerInfo) : ContainerInfo where
  containerNo := mergeScalar c.containerNo ex.containerNo
  sizeType := mergeScalar c.sizeType ex.sizeType
  sealNo := mergeScalar c.sealNo ex.sealNo
  serviceType := mergeScalar c.serviceType ex.serviceType
  quantity := mergeScalar c.quantity ex.quantity
  vgm := mergeScalar c.vgm ex.vgm
  currentStatus := mergeScalar c.currentStatus ex.currentStatus
  date := mergeScalar c.date ex.date
  location := mergeScalar c.location ex.location
  vesselVoyage := mergeScalar c.vesselVoyage ex.vesselVoyage
  latestMove := mergeScalar c.latestMove ex.latestMove

/-- JS `Map` as an association list in insertion order; `set` on an existing
key updates the value in place, otherwise appends. -/
def cmInsert (m : List (String × ContainerInfo)) (k : String)
    (v : ContainerInfo) : List (String × ContainerInfo) :=
  match m with
  | [] => [(k, v)]
  | (k', v') :: rest =>
    if k' = k then (k', v) :: rest else (k', v') :: cmInsert rest k v

/-- JS `Map.get`. -/
def cmGet (m : List (String × ContainerInfo)) (k : String) :
    Option ContainerInfo :=
  (m.find? (fun p => p.1 = k)).map (fun p => p.2)

/-- First loop of the container union: `for (const c of other.containers)
if (c.containerNo) containerMap.set(c.containerNo, {...c})`. -/
def addOther (m : List (String × ContainerInfo)) (c : ContainerInfo) :
    List (String × ContainerInfo) :=
  if c.containerNo = "" then m else cmInsert m c.containerNo c

/-- Second loop of the container union over `base.containers`: merge into an
existing entry preferring `base`'s truthy fields, else insert a copy. -/
def addBase (m : List (String × ContainerInfo)) (c : ContainerInfo) :
    List (String × ContainerInfo) :=
  if c.containerNo = "" then m
  else
    match cmGet m c.containerNo with
    | some ex => cmInsert m c.containerNo (mergeContainer ex c)
    | none => cmInsert m c.containerNo c

/-- The scalar field-fill loop of `mergeResults` applied to all 17 fields in
the code's `fields` list (`carrier`, `trackingUrl`, `fetchedAt`, and the three
list fields are not in that list and are untouched here). -/
def fillFields (m o : TrackingResult) : TrackingResult :=
  { m with
    trackingNo := mergeScalar m.trackingNo o.trackingNo
    blNo := mergeScalar m.blNo o.blNo
    vesselVoyage := mergeScalar m.vesselVoyage o.vesselVoyage
    eta := mergeScalar m.eta o.eta
    placeOfReceipt := mergeScalar m.placeOfReceipt o.placeOfReceipt
    portOfLoading := mergeScalar m.portOfLoading o.portOfLoading
    portOfDischarge := mergeScalar m.portOfDischarge o.portOfDischarge
    placeOfDelivery := mergeScalar m.placeOfDelivery o.placeOfDelivery
    shippedFrom := mergeScalar m.shippedFrom o.shippedFrom
    shippedTo := mergeScalar m.shippedTo o.shippedTo
    transshipments := mergeScalar m.transshipments o.transshipments
    containerCount := mergeScalar m.containerCount o.containerCount
    grossWeight := mergeScalar m.grossWeight o.grossWeight
    measurement := mergeScalar m.measurement o.measurement
    manifestQuantity := mergeScalar m.manifestQuantity o.manifestQuantity
    onBoardDate := mergeScalar m.onBoardDate o.onBoardDate
    serviceMode := mergeScalar m.serviceMode o.serviceMode }

/-- `mergeResults(existing, incoming)` from renderer.ts: pick the
higher-scoring side as base (ties favour `existing`), fill missing scalar
fields from the other side, union containers by container number, and take
the longer of the two `events` / `planMoves` lists. -/
def mergeResults (existing incoming : TrackingResult) : TrackingResult :=
  let existingScore := scoreR existing
  let incomingScore := scoreR incoming
  let base := if existingScore ≥ incomingScore then existing else incoming
  let other := if existingScore ≥ incomingScore then incoming else existing
  let merged := fillFields base other
  let containerMap := (base.containers).foldl addBase
    ((other.containers).foldl addOther [])
  let merged := { merged with containers := containerMap.map Prod.snd }
  let merged := { merged with
    events := if other.events.length > merged.events.length
      then other.events else merged.events }
  { merged with
    planMoves := if other.planMoves.length > merged.planMoves.length
      then other.planMoves else merged.planMoves }

/-! ## Reconciliation engine: shipments, identity resolution, sorting -/

/-- `TrackedShipment` from renderer.ts; `etaDate` is the parsed ETA
(`Date | null`, compared through `getTime()`), `addedAt`/`fetchedAt` are
millisecond timestamps. -/
structure TrackedShipment where
  id : String
  inputNumber : String
  result : TrackingResult
  etaDate : Option Int
  addedAt : Nat
  fetchedAt : Nat
deriving DecidableEq

/-- `getShipmentId`: `result.blNo || result.trackingNo || inputNumber`. -/
def getShipmentId (r : TrackingResult) (inputNumber : String) : String :=
  if r.blNo ≠ "" then r.blNo
  else if r.trackingNo ≠ "" then r.trackingNo
  else inputNumber

/-- The nonempty container numbers of a result (`newContainers` in
`findOverlappingShipment`: `result.containers.map(c => c.containerNo)
.filter(Boolean)` collected into a `Set`). -/
def containerNos (r : TrackingResult) : List String :=
  (r.containers.map ContainerInfo.containerNo).filter (· ≠ "")

/-- Whether shipment `s` shares a (nonempty) container number with `r`. -/
def overlapsWith (r : TrackingResult) (s : TrackedShipment) : Bool :=
  s.result.containers.any
    (fun c => c.containerNo ≠ "" ∧ c.containerNo ∈ containerNos r)

/-- `findOverlappingShipment`: index of the first shipment sharing a container
number with the new result, `none` (JS `-1`) when there is none or the new
result has no (nonempty) container numbers. -/
def findOverlappingShipment (shipments : List TrackedShipment)
    (result : TrackingResult) : Option Nat :=
  if containerNos result = [] then none
  else shipments.findIdx? (overlapsWith result)

/-- `mergedResult.fetchedAt || Date.now()` (`0` is falsy in JS). -/
def fetchedAtOrNow (x : Option Nat) (now : Nat) : Nat :=
  match x with
  | some t => if t ≠ 0 then t else now
  | none => now

/-- The `entry` record built by `handleResult` when an existing shipment
absorbed the merge: result merged, display identity favouring the merged
result's B/L number over the previous identity, `addedAt` kept from the
existing shipment. -/
def mergedEntry (pd : String → Option Int) (now : Nat) (num : String)
    (sPrev : TrackedShipment) (result : TrackingResult) : TrackedShipment :=
  let mergedResult := mergeResults sPrev.result result
  { id := if mergedResult.blNo ≠ "" then mergedResult.blNo else sPrev.id
    inputNumber := num
    result := mergedResult
    etaDate := pd mergedResult.eta
    addedAt := sPrev.addedAt
    fetchedAt := fetchedAtOrNow mergedResult.fetchedAt now }

/-- The `entry` record built by `handleResult` for a brand-new identity. -/
def freshEntry (pd : String → Option Int) (now : Nat) (num : String)
    (result : TrackingResult) : TrackedShipment :=
  { id := getShipmentId result num
    inputNumber := num
    result := result
    etaDate := pd result.eta
    addedAt := now
    fetchedAt := fetchedAtOrNow result.fetchedAt now }

/-- The update step of `handleResult` (renderer.ts) before the re-sort:
resolve the identity of the incoming `(num, result)` pair, merge into the
matching shipment in place, or append a new shipment.  `pd` is the date
parser (`parseDate`, kept abstract since its fallback defers to the host's
`new Date(...)` parsing) and `now` is `Date.now()`. -/
def updateShipments (pd : String → Option Int) (now : Nat)
    (shipments : List TrackedShipment) (num : String)
    (result : TrackingResult) : List TrackedShipment :=
  let id := getShipmentId result num
  let existingIdx :=
    match shipments.findIdx? (fun s => s.id = id) with
    | some i => some i
    | none => findOverlappingShipment shipments result
  match existingIdx with
  | some i =>
    match shipments[i]? with
    | some sPrev => shipments.set i (mergedEntry pd now num sPrev result)
    | none => shipments
  | none => shipments ++ [freshEntry pd now num result]

/-- The comparator passed to `shipments.sort` in `sortShipments`. -/
def cmpShipments (a b : TrackedShipment) : Int :=
  match a.etaDate, b.etaDate with
  | some ta, some tb => ta - tb
  | some _, none => -1
  | none, some _ => 1
  | none, none => (a.addedAt : Int) - (b.addedAt : Int)

/-- `a` need not move after `b` (comparator value ≤ 0). -/
def shipLe (a b : TrackedShipment) : Bool := cmpShipments a b ≤ 0

/-- Stable insertion of `a` into `l`: `a` goes in front of the first element
it need not follow. -/
def insertSortedBy (le : α → α → Bool) (a : α) : List α → List α
  | [] => [a]
  | b :: l => if le a b then a :: b :: l else b :: insertSortedBy le a l

/-- Stable sort (the head of the list, which is earliest, is inserted last,
in front of any element it ties with).  `Array.prototype.sort` is required to
be stable and, for the consistent comparator `cmpShipments`, every stable
sort produces the same output, so this models `sortShipments` faithfully. -/
def stableSortBy (le : α → α → Bool) : List α → List α
  | [] => []
  | a :: l => insertSortedBy le a (stableSortBy le l)

/-- `sortShipments` from renderer.ts (the in-place `shipments.sort(...)`,
modelled functionally). -/
def sortShipments (shipments : List TrackedShipment) : List TrackedShipment :=
  stableSortBy shipLe shipments

/-- `handleResult` in `doSearch`: fold the pair in, then re-sort. -/
def handleResult (pd : String → Option Int) (now : Nat)
    (shipments : List TrackedShipment) (num : String)
    (result : TrackingResult) : List TrackedShipment :=
  sortShipments (updateShipments pd now shipments num result)

/-! ## Orchestrator: `CarrierRegistry.trackAll` (registry.ts) -/

/-- `CACHE_TTL = 30 * 60 * 1000` milliseconds. -/
def CACHE_TTL : Nat := 30 * 60 * 1000

/-- How an adapter's `track` promise eventually settles: resolve with a
result, resolve with `null`, or reject. -/
inductive Outcome where
  | success : TrackingResult → Outcome
  | nothing : Outcome
  | failure : Outcome
deriving DecidableEq

/-- A registered adapter together with the way its `track` call will settle
for the queried value. -/
structure CarrierRun where
  id : String
  displayName : String
  outcome : Outcome
deriving DecidableEq

def Outcome.isSuccess : Outcome → Bool
  | .success _ => true
  | _ => false

/-- `TrackingStatus` progress values. -/
inductive TStatus where
  | searching
  | found
  | noResult
  | error
deriving DecidableEq

/-- One `onProgress(carrierId, carrierName, status)` call. -/
structure PEvent where
  carrierId : String
  carrierName : String
  status : TStatus
deriving DecidableEq

/-- The mutable state of one `runBatch` promise executor: the `found` flag
(holding the winning, timestamped result once set), the `pending` counter,
the progress events emitted so far, the `resolve(...)` calls made so far (a
promise settles to the first one), and the pending cache write. -/
structure BatchState where
  found : Option TrackingResult
  pending : Nat
  events : List PEvent
  resolves : List (Option TrackingResult)
  cacheWrite : Option (TrackingResult × Nat)
deriving DecidableEq

/-- The settlement handler attached to carrier `i`'s `track` promise
(`.then(...).catch(...).finally(...)` in `runBatch`).  A `success` settling
first stamps `fetchedAt`, records the cache write, emits `found` and resolves;
`null`/rejection before a win emit `no-result`/`error`; anything settling
after the win emits nothing; the `finally` handler decrements `pending` and
resolves `null` when everything settled without a win. -/
def settleOne (carriers : List CarrierRun) (now : Nat) (st : BatchState)
    (i : Nat) : BatchState :=
  match carriers[i]? with
  | none => st
  | some c =>
    let st1 :=
      match st.found, c.outcome with
      | none, .success r =>
        let r' := { r with fetchedAt := some now }
        { st with
          found := some r'
          events := st.events ++ [(⟨c.id, c.displayName, .found⟩ : PEvent)]
          resolves := st.resolves ++ [some r']
          cacheWrite := some (r', now) }
      | some _, .success _ => st
      | none, .nothing =>
        { st with events := st.events ++ [(⟨c.id, c.displayName, .noResult⟩ : PEvent)] }
      | some _, .nothing => st
      | none, .failure =>
        { st with events := st.events ++ [(⟨c.id, c.displayName, .error⟩ : PEvent)] }
      | some _, .failure => st
    let st2 := { st1 with pending := st1.pending - 1 }
    if st2.pending = 0 ∧ st2.found = none then
      { st2 with resolves := st2.resolves ++ [none] }
    else st2

/-- `runBatch(carriers)`: emit `searching` for every carrier in registration
order (the synchronous loop runs to completion before any promise handler),
then process the settlements in the order `σ` in which the promises settle.
The promise's value is the first `resolve` call; an empty `resolves` list
means the promise never settles. -/
def runBatch (carriers : List CarrierRun) (σ : List Nat) (now : Nat) :
    BatchState :=
  σ.foldl (settleOne carriers now)
    { found := none
      pending := carriers.length
      events := carriers.map (fun c => (⟨c.id, c.displayName, .searching⟩ : PEvent))
      resolves := []
      cacheWrite := none }

/-- The cache, `Map<string, {result, timestamp}>`, as an association list. -/
def cacheLookup (cache : List (String × TrackingResult × Nat))
    (value : String) : Option (TrackingResult × Nat) :=
  (cache.find? (fun p => p.1 = value)).map Prod.snd

/-- `Map.set` for the cache. -/
def cacheSet (cache : List (String × TrackingResult × Nat)) (value : String)
    (e : TrackingResult × Nat) : List (String × TrackingResult × Nat) :=
  match cache with
  | [] => [(value, e)]
  | (k, e') :: rest =>
    if k = value then (k, e) :: rest else (k, e') :: cacheSet rest value e

/-- The cache read at the top of `trackAll`: a hit requires `!forceRefresh`,
a present entry, and `Date.now() - cached.timestamp < CACHE_TTL`. -/
def cacheHit (cache : List (String × TrackingResult × Nat)) (value : String)
    (now : Nat) (forceRefresh : Bool) : Option (TrackingResult × Nat) :=
  if forceRefresh then none
  else
    match cacheLookup cache value with
    | some (r, ts) => if now - ts < CACHE_TTL then some (r, ts) else none
    | none => none

def applyCacheWrite (cache : List (String × TrackingResult × Nat))
    (value : String) : Option (TrackingResult × Nat) →
    List (String × TrackingResult × Nat)
  | some e => cacheSet cache value e
  | none => cache

/-- The observable outcome of one `trackAll` call.  `res = none` means the
returned promise never settles; `res = some none` is resolution with `null`.
`invoked` lists the ids whose `track` was called, in invocation order. -/
structure TrackOut where
  res : Option (Option TrackingResult)
  events : List PEvent
  invoked : List String
  cache : List (String × TrackingResult × Nat)
deriving DecidableEq

/-- The tier race of `trackAll` after a cache miss: race the primary tier;
if its promise resolves `null`, the abort signal was never pulled and a
nonempty deferred tier exists, race the deferred tier. -/
def raceTiers (cache : List (String × TrackingResult × Nat)) (value : String)
    (now : Nat) (primary deferred : List CarrierRun) (σp σd : List Nat) :
    TrackOut :=
  let pb := runBatch primary σp now
  match pb.resolves.head? with
  | none =>
    { res := none, events := pb.events, invoked := primary.map CarrierRun.id
      cache := applyCacheWrite cache value pb.cacheWrite }
  | some pres =>
    let cache1 := applyCacheWrite cache value pb.cacheWrite
    if pres.isSome ∨ pb.found.isSome ∨ deferred.isEmpty then
      { res := some pres, events := pb.events
        invoked := primary.map CarrierRun.id, cache := cache1 }
    else
      let db := runBatch deferred σd now
      { res := db.resolves.head?
        events := pb.events ++ db.events
        invoked := primary.map CarrierRun.id ++ deferred.map CarrierRun.id
        cache := applyCacheWrite cache1 value db.cacheWrite }

/-- `trackAll(value, onProgress, forceRefresh)`: cache check, then the
two-tier race.  `primary`/`deferred` are the two tiers of the registered
adapters (the partition by `DEFERRED_CARRIERS`), `σp`/`σd` the settle orders
of their promises. -/
def trackAll (cache : List (String × TrackingResult × Nat)) (value : String)
    (now : Nat) (forceRefresh : Bool) (primary deferred : List CarrierRun)
    (σp σd : List Nat) : TrackOut :=
  match cacheHit cache value now forceRefresh with
  | some (r, ts) =>
    { res := some (some { r with fetchedAt := some ts })
      events := [], invoked := [], cache := cache }
  | none => raceTiers cache value now primary deferred σp σd

/-! ## IPC boundary (`ipc-handlers.ts`) and search session (renderer.ts) -/

/-- The message thrown by the `track-shipment` handler when `trackAll`
resolves `null`. -/
def noResultsMessage (val : String) : String :=
  "No tracking results found for \"" ++ val ++ "\".\n" ++
  "Please check your tracking number and try again."

instance instDecEqExceptResult : DecidableEq (Except String TrackingResult) :=
  fun x y =>
  match x, y with
  | .error a, .error b => decidable_of_iff (a = b) (by simp)
  | .error _, .ok _ => .isFalse (by simp)
  | .ok _, .error _ => .isFalse (by simp)
  | .ok a, .ok b => decidable_of_iff (a = b) (by simp)

/-- JS `String.prototype.trim()` (whitespace stripped from both ends),
modelled over the character list. -/
def jsTrim (s : String) : String :=
  String.mk (((s.data.dropWhile Char.isWhitespace).reverse.dropWhile
    Char.isWhitespace).reverse)

/-- JS `String.prototype.toUpperCase()` (ASCII case mapping). -/
def jsToUpper (s : String) : String := String.mk (s.data.map Char.toUpper)

/-- The `track-shipment` IPC handler: trim/uppercase the input, reject empty
input, run `trackAll`, and reject with the fixed not-found message when it
resolves `null`.  The outer `none` propagates a `trackAll` promise that never
settles. -/
def trackShipmentHandler (cache : List (String × TrackingResult × Nat))
    (trackingNumber : String) (now : Nat) (forceRefresh : Bool)
    (primary deferred : List CarrierRun) (σp σd : List Nat) :
    Option (Except String TrackingResult) :=
  let val := jsToUpper (jsTrim trackingNumber)
  if val = "" then some (.error "Please enter a tracking number.")
  else
    match (trackAll cache val now forceRefresh primary deferred σp σd).res with
    | none => none
    | some none => some (.error (noResultsMessage val))
    | some (some r) => some (.ok r)

/-- The actions a search-session worker performs for one value, in order:
IPC attempts (0-based index), backoff waits, a successful `handleResult`, or
an `errors.push`. -/
inductive SAction where
  | attempt : Nat → SAction
  | wait : Nat → SAction
  | handled : String → TrackingResult → SAction
  | pushError : String → SAction
deriving DecidableEq

/-- `err.message || 'Unknown error'`. -/
def msgOf (e : String) : String := if e ≠ "" then e else "Unknown error"

/-- The per-value retry loop shared by the single-value path and
`processOne` (`for (let attempt = 0; attempt < 2; attempt++) ...` with the
cancellation flags at rest): attempt 0; on rejection wait 2000 ms and make
attempt 1; on a second rejection push `` `${num} — ${err.message}` `` to the
error list.  `oracle n` is how the `trackShipment` IPC promise settles on
attempt `n`. -/
def retryRun (oracle : Nat → Except String TrackingResult) (num : String) :
    List SAction :=
  match oracle 0 with
  | .ok r => [.attempt 0, .handled num r]
  | .error _ =>
    match oracle 1 with
    | .ok r => [.attempt 0, .wait 2000, .attempt 1, .handled num r]
    | .error e1 =>
      [.attempt 0, .wait 2000, .attempt 1,
       .pushError (num ++ " — " ++ msgOf e1)]

/-- The number of IPC attempts in a trace. -/
def countAttempts (tr : List SAction) : Nat :=
  (tr.filter (fun a => match a with | .attempt _ => true | _ => false)).length

/-- The error messages pushed in a trace. -/
def errorsOf (tr : List SAction) : List String :=
  tr.filterMap (fun a => match a with | .pushError m => some m | _ => none)

/-- The worker pool size in the multi-value path:
`Array.from({length: Math.min(MAX_CONCURRENT, queue.length)}, ...)` with
`MAX_CONCURRENT = 2`. -/
def workerCount (queueLen : Nat) : Nat := min 2 queueLen

/-- Queue draining by the worker pool.  `queue.shift()` is synchronous, so
each scheduler step hands the current head of the queue to one worker; `σ` is
the order in which workers come back for their next value.  Workers stop when
the queue is empty. -/
def drainAssign (σ : List Nat) (queue : List String) :
    List (Nat × String) :=
  match σ, queue with
  | _, [] => []
  | [], _ => []
  | w :: σ', v :: q' => (w, v) :: drainAssign σ' q'

/-- Each drained value is processed by `processOne`, which applies the same
retry policy as the single-value path. -/
def drainRun (oracle : String → Nat → Except String TrackingResult)
    (σ : List Nat) (queue : List String) : List (Nat × List SAction) :=
  (drainAssign σ queue).map (fun p => (p.1, retryRun (oracle p.2) p.2))

/-! ## Merge lemmas -/

theorem mergeScalar_eq (b o : String) :
    mergeScalar b o = if b = "" then o else b := by
  by_cases hb : b = "" <;> by_cases ho : o = "" <;>
    simp [mergeScalar, hb, ho]

theorem mergeScalar_self (b : String) : mergeScalar b b = b := by
  simp [mergeScalar]

theorem mergeContainer_self (c : ContainerInfo) : mergeContainer c c = c := by
  cases c
  simp [mergeContainer, mergeScalar_self]

theorem fillFields_self (r : TrackingResult) : fillFields r r = r := by
  cases r
  simp [fillFields, mergeScalar_self]

theorem cmInsert_append_of_not_mem (m : List (String × ContainerInfo))
    (k : String) (v : ContainerInfo) (h : ∀ p ∈ m, p.1 ≠ k) :
    cmInsert m k v = m ++ [(k, v)] := by
  induction m with
  | nil => rfl
  | cons p rest ih =>
    obtain ⟨k', v'⟩ := p
    have hk : k' ≠ k := h (k', v') (List.mem_cons_self _ _)
    simp only [cmInsert, if_neg hk, List.cons_append, List.cons.injEq, true_and]
    exact ih (fun q hq => h q (List.mem_cons_of_mem _ hq))

theorem cmGet_cons (k' : String) (v' : ContainerInfo)
    (rest : List (String × ContainerInfo)) (k : String) :
    cmGet ((k', v') :: rest) k = if k' = k then some v' else cmGet rest k := by
  by_cases h : k' = k <;> simp [cmGet, List.find?, h]

theorem cmInsert_of_get_eq (m : List (String × ContainerInfo)) (k : String)
    (v : ContainerInfo) (h : cmGet m k = some v) : cmInsert m k v = m := by
  induction m with
  | nil => simp [cmGet] at h
  | cons p rest ih =>
    obtain ⟨k', v'⟩ := p
    by_cases hk : k' = k
    · subst hk
      rw [cmGet_cons, if_pos rfl] at h
      have hv : v' = v := by injection h
      simp [cmInsert, hv]
    · rw [cmGet_cons, if_neg hk] at h
      simp only [cmInsert, if_neg hk, List.cons.injEq, true_and]
      exact ih h

theorem foldl_addOther_eq (l : List ContainerInfo) :
    ∀ (acc : List (String × ContainerInfo)),
    (∀ c ∈ l, c.containerNo ≠ "") →
    (l.map ContainerInfo.containerNo).Nodup →
    (∀ c ∈ l, ∀ p ∈ acc, p.1 ≠ c.containerNo) →
    l.foldl addOther acc = acc ++ l.map (fun c => (c.containerNo, c)) := by
  induction l with
  | nil => intro acc _ _ _; simp
  | cons c l ih =>
    intro acc hne hnodup hdis
    have hc : c.containerNo ≠ "" := hne c (List.mem_cons_self _ _)
    have hhead : c.containerNo ∉ l.map ContainerInfo.containerNo :=
      (List.nodup_cons.mp (by simpa using hnodup)).1
    have hstep : addOther acc c = acc ++ [(c.containerNo, c)] := by
      simp only [addOther, if_neg hc]
      exact cmInsert_append_of_not_mem _ _ _
        (fun p hp => hdis c (List.mem_cons_self _ _) p hp)
    have hdis' : ∀ c' ∈ l, ∀ p ∈ acc ++ [(c.containerNo, c)],
        p.1 ≠ c'.containerNo := by
      intro c' hc' p hp
      rcases List.mem_append.mp hp with hp | hp
      · exact hdis c' (List.mem_cons_of_mem _ hc') p hp
      · have hpc : p = (c.containerNo, c) := by simpa using hp
        rw [hpc]
        intro hcontra
        exact hhead (List.mem_map.mpr ⟨c', hc', hcontra.symm⟩)
    calc (c :: l).foldl addOther acc
        = l.foldl addOther (acc ++ [(c.containerNo, c)]) := by
          simp [hstep]
      _ = (acc ++ [(c.containerNo, c)]) ++
            l.map (fun c => (c.containerNo, c)) :=
          ih _ (fun c' hc' => hne c' (List.mem_cons_of_mem _ hc'))
            (by simpa using (List.nodup_cons.mp (by simpa using hnodup)).2)
            hdis'
      _ = acc ++ (c :: l).map (fun c => (c.containerNo, c)) := by simp

theorem cmGet_mapSelf (l : List ContainerInfo) (c : ContainerInfo)
    (hc : c ∈ l) (hnodup : (l.map ContainerInfo.containerNo).Nodup) :
    cmGet (l.map (fun c => (c.containerNo, c))) c.containerNo = some c := by
  induction l with
  | nil => simp at hc
  | cons a l ih =>
    have hhead : a.containerNo ∉ l.map ContainerInfo.containerNo :=
      (List.nodup_cons.mp (by simpa using hnodup)).1
    rcases List.mem_cons.mp hc with h | h
    · subst h
      rw [List.map_cons, cmGet_cons, if_pos rfl]
    · have hne : a.containerNo ≠ c.containerNo := by
        intro hcontra
        exact hhead (List.mem_map.mpr ⟨c, h, hcontra.symm⟩)
      rw [List.map_cons, cmGet_cons, if_neg hne]
      exact ih h
        (by simpa using (List.nodup_cons.mp (by simpa using hnodup)).2)

theorem foldl_addBase_id (l : List ContainerInfo)
    (m : List (String × ContainerInfo))
    (h : ∀ c ∈ l, c.containerNo ≠ "" ∧ cmGet m c.containerNo = some c) :
    l.foldl addBase m = m := by
  induction l with
  | nil => rfl
  | cons c l ih =>
    obtain ⟨hc, hget⟩ := h c (List.mem_cons_self _ _)
    have hstep : addBase m c = m := by
      simp only [addBase, if_neg hc, hget, mergeContainer_self]
      exact cmInsert_of_get_eq _ _ _ hget
    simp only [List.foldl_cons, hstep]
    exact ih (fun c' hc' => h c' (List.mem_cons_of_mem _ hc'))

/-- C2 counterexample input: a result whose single container has an empty
container number (the `containerNo` field is a required string in the data
model, but the empty string inhabits it). -/
def c2res : TrackingResult where
  carrier := "maersk"
  trackingNo := ""
  blNo := ""
  vesselVoyage := ""
  eta := ""
  placeOfReceipt := ""
  portOfLoading := ""
  portOfDischarge := ""
  placeOfDelivery := ""
  shippedFrom := ""
  shippedTo := ""
  transshipments := ""
  containerCount := ""
  grossWeight := ""
  measurement := ""
  manifestQuantity := ""
  onBoardDate := ""
  serviceMode := ""
  containers := [⟨"", "40HC", "S1", "", "", "", "", "", "", "", ""⟩]
  events := []
  planMoves := []
  trackingUrl := ""
  fetchedAt := none

/-- C2 (counterexample): `mergeResults r r = r` fails for the concrete result
`c2res`: its container has an empty container number, so the container-union
loops (`if (c.containerNo) containerMap.set(...)`) drop it and the merged
result has no containers at all. -/
theorem mergeResults_self_counterexample :
    mergeResults c2res c2res ≠ c2res ∧
    (mergeResults c2res c2res).containers = [] ∧
    c2res.containers ≠ [] := by decide

/-- C2 (amended): merging a result with itself yields that result unchanged,
provided every container of the result has a nonempty container number and
the container numbers are pairwise distinct (the uniqueness the data model
already requires).  Without the nonemptiness proviso the container-union
loops drop the container, as `mergeResults_self_counterexample` shows. -/
theorem mergeResults_self (r : TrackingResult)
    (hne : ∀ c ∈ r.containers, c.containerNo ≠ "")
    (hnodup : (r.containers.map ContainerInfo.containerNo).Nodup) :
    mergeResults r r = r := by
  have hge : scoreR r ≥ scoreR r := le_refl _
  have h1 : r.containers.foldl addOther [] =
      r.containers.map (fun c => (c.containerNo, c)) := by
    simpa using foldl_addOther_eq r.containers [] hne hnodup (by simp)
  have h2 : r.containers.foldl addBase
      (r.containers.map (fun c => (c.containerNo, c))) =
      r.containers.map (fun c => (c.containerNo, c)) :=
    foldl_addBase_id _ _
      (fun c hc => ⟨hne c hc, cmGet_mapSelf r.containers c hc hnodup⟩)
  simp only [mergeResults, if_pos hge, fillFields_self, h1, h2]
  cases r
  simp
  rw [show (Prod.snd ∘ fun c : ContainerInfo => (c.containerNo, c)) = id
    from rfl, List.map_id]

/-! ## C4: base selection and scalar-field merge -/

/-- The enumeration of top-level scalar fields of a Result that the data
model lists as optional — exactly the code's `fields` array in
`mergeResults`.  (`carrier` is the only required scalar identifier and is
handled separately below; the fetch timestamp is managed by `handleResult`,
not by the scalar-fill loop.) -/
inductive SField where
  | trackingNo | blNo | vesselVoyage | eta | placeOfReceipt | portOfLoading
  | portOfDischarge | placeOfDelivery | shippedFrom | shippedTo
  | transshipments | containerCount | grossWeight | measurement
  | manifestQuantity | onBoardDate | serviceMode
deriving DecidableEq

def SField.get : SField → TrackingResult → String
  | .trackingNo, r => r.trackingNo
  | .blNo, r => r.blNo
  | .vesselVoyage, r => r.vesselVoyage
  | .eta, r => r.eta
  | .placeOfReceipt, r => r.placeOfReceipt
  | .portOfLoading, r => r.portOfLoading
  | .portOfDischarge, r => r.portOfDischarge
  | .placeOfDelivery, r => r.placeOfDelivery
  | .shippedFrom, r => r.shippedFrom
  | .shippedTo, r => r.shippedTo
  | .transshipments, r => r.transshipments
  | .containerCount, r => r.containerCount
  | .grossWeight, r => r.grossWeight
  | .measurement, r => r.measurement
  | .manifestQuantity, r => r.manifestQuantity
  | .onBoardDate, r => r.onBoardDate
  | .serviceMode, r => r.serviceMode

/-- The merge base as the spec describes it: the higher-scoring result, the
existing one on ties. -/
def baseOf (existing incoming : TrackingResult) : TrackingResult :=
  if scoreR existing < scoreR incoming then incoming else existing

/-- The non-base side of the merge. -/
def otherOf (existing incoming : TrackingResult) : TrackingResult :=
  if scoreR existing < scoreR incoming then existing else incoming

theorem sfield_get_fillFields (f : SField) (m o : TrackingResult) :
    f.get (fillFields m o) = mergeScalar (f.get m) (f.get o) := by
  cases f <;> rfl

/-- C4 (confirmed): the merge base is the side with the higher populated-field
count over exactly {blNo, portOfLoading, placeOfReceipt, portOfDischarge,
placeOfDelivery} (`scoreR`), ties keeping the existing result; every optional
top-level scalar field of the merged result keeps the base's value whenever
the base has one, and takes the other side's value exactly when the base's is
empty; the required `carrier` identifier (and the fetch timestamp) always
come from the base. -/
theorem mergeResults_base_and_fill (e i : TrackingResult) (f : SField) :
    baseOf e i = (if scoreR e < scoreR i then i else e) ∧
    f.get (mergeResults e i) =
      (if f.get (baseOf e i) = "" then f.get (otherOf e i)
       else f.get (baseOf e i)) ∧
    (mergeResults e i).carrier = (baseOf e i).carrier ∧
    (mergeResults e i).fetchedAt = (baseOf e i).fetchedAt ∧
    (mergeResults e i).trackingUrl = (baseOf e i).trackingUrl := by
  by_cases h : scoreR e < scoreR i
  · have hge : ¬(scoreR e ≥ scoreR i) := by omega
    refine ⟨rfl, ?_, ?_, ?_, ?_⟩ <;>
      simp only [mergeResults, if_neg hge, baseOf, otherOf, if_pos h]
    · rw [← mergeScalar_eq]
      cases f <;> simp [SField.get, fillFields]
    · rfl
    · rfl
    · rfl
  · have hge : scoreR e ≥ scoreR i := by omega
    refine ⟨rfl, ?_, ?_, ?_, ?_⟩ <;>
      simp only [mergeResults, if_pos hge, baseOf, otherOf, if_neg h]
    · rw [← mergeScalar_eq]
      cases f <;> simp [SField.get, fillFields]
    · rfl
    · rfl
    · rfl

/-! ## Sort lemmas (generic stable insertion sort) -/

theorem mem_insertSortedBy (le : α → α → Bool) (a x : α) (l : List α) :
    x ∈ insertSortedBy le a l ↔ x = a ∨ x ∈ l := by
  induction l with
  | nil => simp [insertSortedBy]
  | cons b l ih =>
    by_cases h : le a b <;> simp [insertSortedBy, h, ih] <;> tauto

theorem pairwise_insertSortedBy (le : α → α → Bool)
    (htot : ∀ a b, le a b = true ∨ le b a = true)
    (htrans : ∀ a b c, le a b = true → le b c = true → le a c = true)
    (a : α) (l : List α) (h : l.Pairwise (fun x y => le x y = true)) :
    (insertSortedBy le a l).Pairwise (fun x y => le x y = true) := by
  induction l with
  | nil => simp [insertSortedBy]
  | cons b l ih =>
    rcases List.pairwise_cons.mp h with ⟨hb, hl⟩
    by_cases hab : le a b = true
    · rw [insertSortedBy, if_pos hab]
      refine List.pairwise_cons.mpr ⟨?_, h⟩
      intro y hy
      rcases List.mem_cons.mp hy with hy | hy
      · rw [hy]; exact hab
      · exact htrans a b y hab (hb y hy)
    · rw [insertSortedBy, if_neg hab]
      refine List.pairwise_cons.mpr ⟨?_, ih hl⟩
      intro y hy
      rcases (mem_insertSortedBy le a y l).mp hy with hy | hy
      · rw [hy]
        rcases htot a b with h' | h'
        · exact absurd h' hab
        · exact h'
      · exact hb y hy

theorem pairwise_stableSortBy (le : α → α → Bool)
    (htot : ∀ a b, le a b = true ∨ le b a = true)
    (htrans : ∀ a b c, le a b = true → le b c = true → le a c = true)
    (l : List α) :
    (stableSortBy le l).Pairwise (fun x y => le x y = true) := by
  induction l with
  | nil => simp [stableSortBy]
  | cons a l ih =>
    exact pairwise_insertSortedBy le htot htrans a _ ih

theorem filter_insertSortedBy_pos (le : α → α → Bool) (q : α → Bool) (a : α)
    (hqa : q a = true) (H : ∀ b, q b = true → le a b = true) (l : List α) :
    (insertSortedBy le a l).filter q = a :: l.filter q := by
  induction l with
  | nil => simp [insertSortedBy, hqa]
  | cons b l ih =>
    by_cases hab : le a b = true
    · rw [insertSortedBy, if_pos hab]
      simp [List.filter_cons, hqa]
    · rw [insertSortedBy, if_neg hab]
      have hqb : q b = false := by
        rcases Bool.eq_false_or_eq_true (q b) with h | h
        · exact absurd (H b h) hab
        · exact h
      simp [List.filter_cons, hqb, ih]

theorem filter_insertSortedBy_neg (le : α → α → Bool) (q : α → Bool) (a : α)
    (hqa : q a = false) (l : List α) :
    (insertSortedBy le a l).filter q = l.filter q := by
  induction l with
  | nil => simp [insertSortedBy, hqa]
  | cons b l ih =>
    by_cases hab : le a b = true
    · rw [insertSortedBy, if_pos hab]
      simp [List.filter_cons, hqa]
    · rw [insertSortedBy, if_neg hab]
      simp [List.filter_cons, ih]

theorem filter_stableSortBy (le : α → α → Bool) (q : α → Bool)
    (H : ∀ a, q a = true → ∀ b, q b = true → le a b = true) (l : List α) :
    (stableSortBy le l).filter q = l.filter q := by
  induction l with
  | nil => rfl
  | cons a l ih =>
    rcases Bool.eq_false_or_eq_true (q a) with hqa | hqa
    · rw [stableSortBy, filter_insertSortedBy_pos le q a hqa (H a hqa)]
      simp [List.filter_cons, hqa, ih]
    · rw [stableSortBy, filter_insertSortedBy_neg le q a hqa]
      simp [List.filter_cons, hqa, ih]

theorem stableSortBy_of_pairwise (le : α → α → Bool) (l : List α)
    (h : l.Pairwise (fun x y => le x y = true)) : stableSortBy le l = l := by
  induction l with
  | nil => rfl
  | cons a l ih =>
    rcases List.pairwise_cons.mp h with ⟨ha, hl⟩
    rw [stableSortBy, ih hl]
    cases l with
    | nil => rfl
    | cons b l =>
      rw [insertSortedBy, if_pos (ha b (List.mem_cons_self _ _))]

/-! ## The shipment comparator -/

theorem shipLe_total (a b : TrackedShipment) :
    shipLe a b = true ∨ shipLe b a = true := by
  cases ha : a.etaDate <;> cases hb : b.etaDate <;>
    simp [shipLe, cmpShipments, ha, hb] <;> omega

theorem shipLe_trans (a b c : TrackedShipment) (h1 : shipLe a b = true)
    (h2 : shipLe b c = true) : shipLe a c = true := by
  cases ha : a.etaDate <;> cases hb : b.etaDate <;> cases hc : c.etaDate <;>
    simp [shipLe, cmpShipments, ha, hb, hc] at * <;> omega

theorem cmp_zero_class (a x y : TrackedShipment)
    (hx : cmpShipments a x = 0) (hy : cmpShipments a y = 0) :
    shipLe x y = true := by
  cases ha : a.etaDate <;> cases hx' : x.etaDate <;> cases hy' : y.etaDate <;>
    simp [shipLe, cmpShipments, ha, hx', hy'] at * <;> omega

theorem shipLe_imp_eta_first (x y : TrackedShipment)
    (h : shipLe x y = true) : ¬(x.etaDate = none ∧ y.etaDate ≠ none) := by
  rintro ⟨hx, hy⟩
  cases hy' : y.etaDate with
  | none => exact hy hy'
  | some ty => simp [shipLe, cmpShipments, hx, hy'] at h

theorem shipLe_imp_eta_asc (x y : TrackedShipment) (h : shipLe x y = true) :
    ∀ tx ty, x.etaDate = some tx → y.etaDate = some ty → tx ≤ ty := by
  intro tx ty hx hy
  simp [shipLe, cmpShipments, hx, hy] at h
  omega

theorem shipLe_imp_added_asc (x y : TrackedShipment) (h : shipLe x y = true) :
    x.etaDate = none → y.etaDate = none → x.addedAt ≤ y.addedAt := by
  intro hx hy
  simp [shipLe, cmpShipments, hx, hy] at h
  omega

/-- C7 (amended): the sort applied after every mutation (a) places every
shipment with a parsed ETA before every shipment without one, (b) orders
shipments with parsed ETAs ascending by ETA, (c) orders shipments without a
parsed ETA ascending by their insertion timestamp `addedAt`, and (d) is
stable with respect to the list's CURRENT order: shipments on which the
comparator ties (equal parsed ETAs, or both absent with equal `addedAt`)
retain the relative order they had before the sort, and re-sorting a sorted
collection changes nothing.  The frozen claim's stronger reading — that
equal-ETA shipments always retain their relative *insertion* order — fails,
see `sortShipments_insertion_counterexample`: for equal present ETAs the
comparator returns 0 and the sort preserves the current order, which after
an ETA-changing merge need not be insertion order. -/
theorem sortShipments_spec (l : List TrackedShipment) (a : TrackedShipment) :
    (sortShipments l).Pairwise
      (fun x y => ¬(x.etaDate = none ∧ y.etaDate ≠ none)) ∧
    (sortShipments l).Pairwise
      (fun x y => ∀ tx ty, x.etaDate = some tx → y.etaDate = some ty →
        tx ≤ ty) ∧
    (sortShipments l).Pairwise
      (fun x y => x.etaDate = none → y.etaDate = none →
        x.addedAt ≤ y.addedAt) ∧
    (sortShipments l).filter (fun b => cmpShipments a b = 0) =
      l.filter (fun b => cmpShipments a b = 0) ∧
    sortShipments (sortShipments l) = sortShipments l := by
  have hpw : (sortShipments l).Pairwise (fun x y => shipLe x y = true) :=
    pairwise_stableSortBy shipLe shipLe_total shipLe_trans l
  refine ⟨?_, ?_, ?_, ?_, ?_⟩
  · exact hpw.imp (fun h => shipLe_imp_eta_first _ _ h)
  · exact hpw.imp (fun h => shipLe_imp_eta_asc _ _ h)
  · exact hpw.imp (fun h => shipLe_imp_added_asc _ _ h)
  · refine filter_stableSortBy shipLe _ ?_ l
    intro x hx y hy
    exact cmp_zero_class a x y (by simpa using hx) (by simpa using hy)
  · exact stableSortBy_of_pairwise shipLe _ hpw

/-- A blank Result used to build concrete fixtures. -/
def emptyResult : TrackingResult where
  carrier := ""
  trackingNo := ""
  blNo := ""
  vesselVoyage := ""
  eta := ""
  placeOfReceipt := ""
  portOfLoading := ""
  portOfDischarge := ""
  placeOfDelivery := ""
  shippedFrom := ""
  shippedTo := ""
  transshipments := ""
  containerCount := ""
  grossWeight := ""
  measurement := ""
  manifestQuantity := ""
  onBoardDate := ""
  serviceMode := ""
  containers := []
  events := []
  planMoves := []
  trackingUrl := ""
  fetchedAt := none

/-- Inserted first (`addedAt = 1`), parsed ETA 5. -/
def shipEarly : TrackedShipment where
  id := "S1"
  inputNumber := "S1"
  result := emptyResult
  etaDate := some 5
  addedAt := 1
  fetchedAt := 1

/-- Inserted second (`addedAt = 2`), same parsed ETA 5 (e.g. after a merge
updated its ETA). -/
def shipLate : TrackedShipment where
  id := "S2"
  inputNumber := "S2"
  result := emptyResult
  etaDate := some 5
  addedAt := 2
  fetchedAt := 2

/-- C7 (counterexample): two distinct shipments with equal parsed ETAs whose
current order is the reverse of their insertion order (`addedAt`) stay in the
reversed order across a sort — the comparator returns 0 for equal present
ETAs and never consults `addedAt`, so the claim that equal-ETA shipments
"retain their relative insertion order after any number of re-sorts" fails:
the later-inserted shipment stays first. -/
theorem sortShipments_insertion_counterexample :
    sortShipments [shipLate, shipEarly] = [shipLate, shipEarly] ∧
    shipEarly.addedAt < shipLate.addedAt ∧
    shipEarly.etaDate = shipLate.etaDate ∧
    shipEarly ≠ shipLate := by decide

/-! ## Orchestrator lemmas -/

/-- The progress event(s) emitted when carrier `i` settles while no winner
has resolved yet. -/
def settleEvt (carriers : List CarrierRun) (i : Nat) : List PEvent :=
  match carriers[i]? with
  | none => []
  | some c =>
    match c.outcome with
    | .success _ => [⟨c.id, c.displayName, .found⟩]
    | .nothing => [⟨c.id, c.displayName, .noResult⟩]
    | .failure => [⟨c.id, c.displayName, .error⟩]

/-- Settlement events for a whole settle order. -/
def settleEvts (carriers : List CarrierRun) (σ : List Nat) : List PEvent :=
  (σ.map (settleEvt carriers)).flatten

/-- Whether the carrier at index `i` resolves with a result. -/
def idxSuccess (carriers : List CarrierRun) (i : Nat) : Bool :=
  match carriers[i]? with
  | some c => c.outcome.isSuccess
  | none => false

theorem settleEvts_nil (carriers : List CarrierRun) :
    settleEvts carriers [] = [] := rfl

theorem settleEvts_cons (carriers : List CarrierRun) (i : Nat) (σ : List Nat) :
    settleEvts carriers (i :: σ) =
      settleEvt carriers i ++ settleEvts carriers σ := by
  simp [settleEvts]

theorem foldl_settleOne_nil_carriers (now : Nat) (σ : List Nat) :
    ∀ st : BatchState, σ.foldl (settleOne [] now) st = st := by
  induction σ with
  | nil => intro st; rfl
  | cons i σ ih =>
    intro st
    have hstep : settleOne [] now st i = st := by
      simp [settleOne]
    simp only [List.foldl_cons, hstep]
    exact ih st

theorem settleOne_loser (carriers : List CarrierRun) (now : Nat)
    (st : BatchState) (i : Nat) (c : CarrierRun)
    (hc : carriers[i]? = some c) (hns : c.outcome.isSuccess = false)
    (hf : st.found = none) :
    settleOne carriers now st i =
      if st.pending - 1 = 0 then
        { st with
          events := st.events ++ settleEvt carriers i
          pending := 0
          resolves := st.resolves ++ [none] }
      else
        { st with
          events := st.events ++ settleEvt carriers i
          pending := st.pending - 1 } := by
  cases ho : c.outcome with
  | success r => rw [ho] at hns; simp [Outcome.isSuccess] at hns
  | nothing =>
    simp only [settleOne, hc, hf, ho, settleEvt]
    by_cases hp : st.pending - 1 = 0 <;> simp [hp]
  | failure =>
    simp only [settleOne, hc, hf, ho, settleEvt]
    by_cases hp : st.pending - 1 = 0 <;> simp [hp]

theorem settleOne_winner (carriers : List CarrierRun) (now : Nat)
    (st : BatchState) (w : Nat) (cw : CarrierRun) (r : TrackingResult)
    (hw : carriers[w]? = some cw) (hwo : cw.outcome = .success r)
    (hf : st.found = none) :
    settleOne carriers now st w =
      { found := some { r with fetchedAt := some now }
        pending := st.pending - 1
        events := st.events ++ [(⟨cw.id, cw.displayName, .found⟩ : PEvent)]
        resolves := st.resolves ++ [some { r with fetchedAt := some now }]
        cacheWrite := some ({ r with fetchedAt := some now }, now) } := by
  simp only [settleOne, hw, hf, hwo]
  simp

theorem settleOne_after_found (carriers : List CarrierRun) (now : Nat)
    (st : BatchState) (i : Nat) (r : TrackingResult)
    (hf : st.found = some r) :
    settleOne carriers now st i = { st with pending := st.pending - 1 } ∨
    settleOne carriers now st i = st := by
  cases hc : carriers[i]? with
  | none => right; simp [settleOne, hc]
  | some c =>
    left
    cases ho : c.outcome <;> simp [settleOne, hc, hf, ho]

theorem foldl_after_found (carriers : List CarrierRun) (now : Nat) :
    ∀ (σ : List Nat) (st : BatchState) (r : TrackingResult),
    st.found = some r →
    ∃ p, σ.foldl (settleOne carriers now) st = { st with pending := p } := by
  intro σ
  induction σ with
  | nil =>
    intro st r _
    exact ⟨st.pending, rfl⟩
  | cons i σ ih =>
    intro st r hf
    rcases settleOne_after_found carriers now st i r hf with hstep | hstep <;>
      simp only [List.foldl_cons, hstep]
    · rcases ih { st with pending := st.pending - 1 } r hf with ⟨p, hp⟩
      exact ⟨p, hp⟩
    · exact ih st r hf

theorem foldl_no_success_drain (carriers : List CarrierRun) (now : Nat) :
    ∀ (σ : List Nat) (st : BatchState),
    (∀ i ∈ σ, ∃ c, carriers[i]? = some c ∧ c.outcome.isSuccess = false) →
    st.found = none → st.pending = σ.length → σ ≠ [] →
    σ.foldl (settleOne carriers now) st =
      { found := none
        pending := 0
        events := st.events ++ settleEvts carriers σ
        resolves := st.resolves ++ [none]
        cacheWrite := st.cacheWrite } := by
  intro σ
  induction σ with
  | nil => intro st _ _ _ hne; exact absurd rfl hne
  | cons i σ ih =>
    intro st hv hf hp _
    obtain ⟨c, hc, hns⟩ := hv i (List.mem_cons_self _ _)
    have hstep := settleOne_loser carriers now st i c hc hns hf
    cases σ with
    | nil =>
      have hp0 : st.pending - 1 = 0 := by rw [hp]; rfl
      rw [List.foldl_cons, hstep, if_pos hp0, List.foldl_nil]
      rw [hf]
      simp [settleEvts_cons, settleEvts_nil]
    | cons j σ' =>
      have hp1 : st.pending - 1 ≠ 0 := by rw [hp]; simp
      rw [List.foldl_cons, hstep, if_neg hp1]
      have hih := ih
        { st with
          pending := st.pending - 1
          events := st.events ++ settleEvt carriers i }
        (fun k hk => hv k (List.mem_cons_of_mem _ hk)) hf
        (by simp [hp]) (by simp)
      rw [hih]
      simp [settleEvts_cons, List.append_assoc]

theorem foldl_no_success_under_pending (carriers : List CarrierRun) (now : Nat) :
    ∀ (σ : List Nat) (st : BatchState),
    (∀ i ∈ σ, ∃ c, carriers[i]? = some c ∧ c.outcome.isSuccess = false) →
    st.found = none → σ.length < st.pending →
    σ.foldl (settleOne carriers now) st =
      { st with
        pending := st.pending - σ.length
        events := st.events ++ settleEvts carriers σ } := by
  intro σ
  induction σ with
  | nil => intro st _ _ _; simp [settleEvts_nil]
  | cons i σ ih =>
    intro st hv hf hlt
    obtain ⟨c, hc, hns⟩ := hv i (List.mem_cons_self _ _)
    have hstep := settleOne_loser carriers now st i c hc hns hf
    have hp1 : st.pending - 1 ≠ 0 := by
      simp only [List.length_cons] at hlt
      omega
    rw [List.foldl_cons, hstep, if_neg hp1]
    have hih := ih
      { st with
        pending := st.pending - 1
        events := st.events ++ settleEvt carriers i }
      (fun k hk => hv k (List.mem_cons_of_mem _ hk)) hf
      (by simp only [List.length_cons] at hlt; simp; omega)
    rw [hih]
    simp [settleEvts_cons, List.append_assoc]
    omega

theorem exists_first_success_split (carriers : List CarrierRun) :
    ∀ σ : List Nat,
    (∃ i ∈ σ, idxSuccess carriers i = true) →
    ∃ σa w σb cw r, σ = σa ++ w :: σb ∧ carriers[w]? = some cw ∧
      cw.outcome = .success r ∧
      (∀ i ∈ σa, idxSuccess carriers i = false) := by
  intro σ
  induction σ with
  | nil => rintro ⟨i, hi, _⟩; simp at hi
  | cons i σ ih =>
    intro hex
    rcases Bool.eq_false_or_eq_true (idxSuccess carriers i) with hi | hi
    · rcases hc : carriers[i]? with _ | c
      · unfold idxSuccess at hi
        rw [hc] at hi
        simp at hi
      · have hi' : c.outcome.isSuccess = true := by
          unfold idxSuccess at hi
          rw [hc] at hi
          exact hi
        rcases ho : c.outcome with r | _ | _
        · exact ⟨[], i, σ, c, r, rfl, hc, ho, by simp⟩
        · rw [ho] at hi'; simp [Outcome.isSuccess] at hi'
        · rw [ho] at hi'; simp [Outcome.isSuccess] at hi'
    · have hex' : ∃ j ∈ σ, idxSuccess carriers j = true := by
        rcases hex with ⟨j, hj, hjs⟩
        rcases List.mem_cons.mp hj with hj | hj
        · rw [hj] at hjs; rw [hjs] at hi; simp at hi
        · exact ⟨j, hj, hjs⟩
      rcases ih hex' with ⟨σa, w, σb, cw, r, hsplit, hw, hwo, hns⟩
      refine ⟨i :: σa, w, σb, cw, r, by rw [hsplit]; rfl, hw, hwo, ?_⟩
      intro k hk
      rcases List.mem_cons.mp hk with hk | hk
      · rw [hk]; exact hi
      · exact hns k hk

theorem idxSuccess_false_elim (carriers : List CarrierRun) (i : Nat)
    (hlt : i < carriers.length) (hns : idxSuccess carriers i = false) :
    ∃ c, carriers[i]? = some c ∧ c.outcome.isSuccess = false := by
  unfold idxSuccess at hns
  rcases hc : carriers[i]? with _ | c
  · exact absurd (List.getElem?_eq_none_iff.mp hc) (by omega)
  · rw [hc] at hns
    exact ⟨c, rfl, hns⟩

/-- `runBatch` when a carrier wins: the promise resolves with the winner's
result stamped with `fetchedAt = now`; the trace is `searching` for every
carrier followed by one settle event per pre-winner loser and the winner's
`found`; post-winner settlements contribute nothing; the winner is written
to the cache. -/
theorem runBatch_winner (carriers : List CarrierRun) (σa σb : List Nat)
    (w : Nat) (cw : CarrierRun) (r : TrackingResult) (now : Nat)
    (hlen : carriers.length = (σa ++ w :: σb).length)
    (hva : ∀ i ∈ σa, ∃ c, carriers[i]? = some c ∧
      c.outcome.isSuccess = false)
    (hw : carriers[w]? = some cw) (hwo : cw.outcome = .success r) :
    ∃ p, runBatch carriers (σa ++ w :: σb) now =
      { found := some { r with fetchedAt := some now }
        pending := p
        events := carriers.map
            (fun c => (⟨c.id, c.displayName, .searching⟩ : PEvent)) ++
          settleEvts carriers σa ++
          [(⟨cw.id, cw.displayName, .found⟩ : PEvent)]
        resolves := [some { r with fetchedAt := some now }]
        cacheWrite := some ({ r with fetchedAt := some now }, now) } := by
  obtain ⟨p, hp⟩ := foldl_after_found carriers now σb
    { found := some { r with fetchedAt := some now }
      pending := carriers.length - σa.length - 1
      events := (carriers.map
          (fun c => (⟨c.id, c.displayName, .searching⟩ : PEvent)) ++
        settleEvts carriers σa) ++
        [(⟨cw.id, cw.displayName, .found⟩ : PEvent)]
      resolves := [some { r with fetchedAt := some now }]
      cacheWrite := some ({ r with fetchedAt := some now }, now) }
    { r with fetchedAt := some now } rfl
  refine ⟨p, ?_⟩
  unfold runBatch
  rw [List.foldl_append]
  rw [foldl_no_success_under_pending carriers now σa
    { found := none
      pending := carriers.length
      events := carriers.map
        (fun c => (⟨c.id, c.displayName, .searching⟩ : PEvent))
      resolves := []
      cacheWrite := none }
    hva rfl (by simp at hlen ⊢; omega)]
  show List.foldl (settleOne carriers now)
    { found := none
      pending := carriers.length - σa.length
      events := carriers.map
        (fun c => (⟨c.id, c.displayName, .searching⟩ : PEvent)) ++
        settleEvts carriers σa
      resolves := []
      cacheWrite := none } (w :: σb) = _
  rw [List.foldl_cons]
  rw [settleOne_winner carriers now
    { found := none
      pending := carriers.length - σa.length
      events := carriers.map
        (fun c => (⟨c.id, c.displayName, .searching⟩ : PEvent)) ++
        settleEvts carriers σa
      resolves := []
      cacheWrite := none } w cw r hw hwo rfl]
  show List.foldl (settleOne carriers now)
    { found := some { r with fetchedAt := some now }
      pending := carriers.length - σa.length - 1
      events := (carriers.map
          (fun c => (⟨c.id, c.displayName, .searching⟩ : PEvent)) ++
        settleEvts carriers σa) ++
        [(⟨cw.id, cw.displayName, .found⟩ : PEvent)]
      resolves := [some { r with fetchedAt := some now }]
      cacheWrite := some ({ r with fetchedAt := some now }, now) } σb = _
  rw [hp]

/-- `runBatch` when no carrier succeeds and every promise settles: the last
settlement resolves the batch promise with `null`; the trace is `searching`
for every carrier followed by one `no-result`/`error` settle event per
carrier; nothing is cached. -/
theorem runBatch_no_success (carriers : List CarrierRun) (σ : List Nat)
    (now : Nat) (hperm : σ.Perm (List.range carriers.length))
    (hns : ∀ c ∈ carriers, c.outcome.isSuccess = false)
    (hne : carriers ≠ []) :
    runBatch carriers σ now =
      { found := none
        pending := 0
        events := carriers.map
            (fun c => (⟨c.id, c.displayName, .searching⟩ : PEvent)) ++
          settleEvts carriers σ
        resolves := [none]
        cacheWrite := none } := by
  have hlen : σ.length = carriers.length := by
    have := hperm.length_eq
    simpa using this
  have hv : ∀ i ∈ σ, ∃ c, carriers[i]? = some c ∧
      c.outcome.isSuccess = false := by
    intro i hi
    have hir : i ∈ List.range carriers.length := hperm.mem_iff.mp hi
    have hlt : i < carriers.length := List.mem_range.mp hir
    rcases hc : carriers[i]? with _ | c
    · exact absurd (List.getElem?_eq_none_iff.mp hc) (by omega)
    · refine ⟨c, rfl, hns c ?_⟩
      have := List.getElem?_eq_some_iff.mp hc
      rcases this with ⟨h, hget⟩
      rw [← hget]
      exact List.getElem_mem _
  have hσne : σ ≠ [] := by
    intro hcontra
    rw [hcontra] at hlen
    exact hne (List.eq_nil_of_length_eq_zero hlen.symm)
  have := foldl_no_success_drain carriers now σ
    { found := none, pending := carriers.length
      events := carriers.map
        (fun c => (⟨c.id, c.displayName, .searching⟩ : PEvent))
      resolves := [], cacheWrite := none }
    hv rfl (by simp [hlen]) hσne
  unfold runBatch
  rw [this]
  rfl

/-! ## C1: progress events of one race -/

/-- C1 (amended): in a race over one tier in which the carriers listed in
`σa` settle first without a result, then carrier `w` resolves with a result,
then the carriers in `σb` settle: every adapter gets a `searching` event
before any settlement, each loser that settles before the winner emits
exactly one event — `no-result` if it resolved `null`, `error` if it
rejected — the winner emits `found` and the race resolves with its result,
and losers that settle after the winner emit no event at all (the trace ends
at the winner's `found`).  The frozen claim's stronger reading — one event
per settling loser regardless of settling before or after the winner — fails,
see `runBatch_post_winner_counterexample`. -/
theorem runBatch_progress_events (carriers : List CarrierRun)
    (σa σb : List Nat) (w : Nat) (cw : CarrierRun) (r : TrackingResult)
    (now : Nat) (hlen : carriers.length = (σa ++ w :: σb).length)
    (hva : ∀ i ∈ σa, ∃ c, carriers[i]? = some c ∧
      c.outcome.isSuccess = false)
    (hw : carriers[w]? = some cw) (hwo : cw.outcome = .success r) :
    (runBatch carriers (σa ++ w :: σb) now).events =
      carriers.map
        (fun c => (⟨c.id, c.displayName, .searching⟩ : PEvent)) ++
        settleEvts carriers σa ++
        [(⟨cw.id, cw.displayName, .found⟩ : PEvent)] ∧
    (runBatch carriers (σa ++ w :: σb) now).resolves.head? =
      some (some { r with fetchedAt := some now }) ∧
    (∀ i ∈ σa, ∃ c, carriers[i]? = some c ∧
      settleEvt carriers i =
        [(⟨c.id, c.displayName,
           if c.outcome = .nothing then TStatus.noResult
           else TStatus.error⟩ : PEvent)]) := by
  obtain ⟨p, hp⟩ := runBatch_winner carriers σa σb w cw r now hlen hva hw hwo
  refine ⟨by rw [hp], by rw [hp]; rfl, ?_⟩
  intro i hi
  obtain ⟨c, hc, hns⟩ := hva i hi
  refine ⟨c, hc, ?_⟩
  cases ho : c.outcome with
  | success r' => rw [ho] at hns; simp [Outcome.isSuccess] at hns
  | nothing => simp [settleEvt, hc, ho]
  | failure => simp [settleEvt, hc, ho]

/-- Fixtures for the C1 race theorems: three adapters of which only the
second resolves with a result. -/
def carrierA : CarrierRun where
  id := "ca"
  displayName := "Carrier A"
  outcome := .nothing

def carrierB : CarrierRun where
  id := "cb"
  displayName := "Carrier B"
  outcome := .success { emptyResult with carrier := "cb", blNo := "B1" }

def carrierC : CarrierRun where
  id := "cc"
  displayName := "Carrier C"
  outcome := .failure

/-- C1 witness: with adapters A (null), B (success), C (reject), and settle
order A, C, B: `searching` for all three in registration order, then
`no-result` for A, `error` for C, `found` for B, and the race resolves with
B's result. -/
theorem runBatch_progress_events_witness :
    (runBatch [carrierA, carrierB, carrierC] ([0, 2] ++ 1 :: []) 77).events =
      [⟨"ca", "Carrier A", .searching⟩, ⟨"cb", "Carrier B", .searching⟩,
       ⟨"cc", "Carrier C", .searching⟩, ⟨"ca", "Carrier A", .noResult⟩,
       ⟨"cc", "Carrier C", .error⟩, ⟨"cb", "Carrier B", .found⟩] ∧
    (runBatch [carrierA, carrierB, carrierC]
      ([0, 2] ++ 1 :: []) 77).resolves.head? =
      some (some { emptyResult with
        carrier := "cb", blNo := "B1", fetchedAt := some 77 }) := by
  have h := runBatch_progress_events [carrierA, carrierB, carrierC]
    [0, 2] [] 1 carrierB { emptyResult with carrier := "cb", blNo := "B1" }
    77 (by decide)
    (by
      intro i hi
      simp only [List.mem_cons, List.not_mem_nil, or_false] at hi
      rcases hi with rfl | rfl
      · exact ⟨carrierA, by decide⟩
      · exact ⟨carrierC, by decide⟩)
    (by decide) (by decide)
  refine ⟨?_, h.2.1⟩
  rw [h.1]
  decide

/-- C1 (counterexample): with adapters A (success) and B (null) where A
settles first, the whole trace is `searching A`, `searching B`, `found A` —
adapter B settles after the winner and emits no event, so a losing adapter
that settles after the winner does NOT receive a `no-result` event, contrary
to the claim's "regardless of whether it settles before or after the winner
resolves". -/
theorem runBatch_post_winner_counterexample :
    (runBatch
      [{ id := "ca", displayName := "Carrier A"
         outcome := .success { emptyResult with carrier := "ca" } },
       { id := "cb", displayName := "Carrier B", outcome := .nothing }]
      [0, 1] 5).events =
      [⟨"ca", "Carrier A", .searching⟩, ⟨"cb", "Carrier B", .searching⟩,
       ⟨"ca", "Carrier A", .found⟩] ∧
    ((runBatch
      [{ id := "ca", displayName := "Carrier A"
         outcome := .success { emptyResult with carrier := "ca" } },
       { id := "cb", displayName := "Carrier B", outcome := .nothing }]
      [0, 1] 5).events.filter
        (fun e => e.carrierId = "cb" ∧ e.status ≠ TStatus.searching)) = []
    := by decide

/-! ## C10: empty registry hangs -/

/-- C10 (confirmed): with no registered adapters both tiers are empty; on any
cache miss `runBatch` starts with `pending = 0` and its `resolve` calls live
only inside per-carrier settlement handlers that never run, so the `trackAll`
promise never settles — the model's result is the outer `none` (no
resolution), neither a Result nor `null`. -/
theorem trackAll_empty_registry_hangs
    (cache : List (String × TrackingResult × Nat)) (value : String)
    (now : Nat) (fr : Bool) (σp σd : List Nat)
    (hmiss : cacheHit cache value now fr = none) :
    (trackAll cache value now fr [] [] σp σd).res = none ∧
    (runBatch [] σp now).resolves = [] ∧
    (runBatch [] σp now).pending = 0 := by
  have h0 : runBatch [] σp now =
      { found := none, pending := 0, events := [], resolves := []
        cacheWrite := none } := by
    unfold runBatch
    exact foldl_settleOne_nil_carriers now σp _
  refine ⟨?_, by rw [h0], by rw [h0]⟩
  unfold trackAll
  rw [hmiss]
  unfold raceTiers
  rw [h0]
  rfl

/-- C10 witness: a concrete cache-missing call with the empty registry
produces no resolution. -/
theorem trackAll_empty_registry_hangs_witness :
    cacheHit [] "V1" 9 false = none ∧
    (trackAll [] "V1" 9 false [] [] [0] []).res = none :=
  ⟨by decide,
   (trackAll_empty_registry_hangs [] "V1" 9 false [0] [] (by decide)).1⟩

/-! ## C3: cache hit and expiry -/

/-- C3 (confirmed): with `forceRefresh = false` and a cache entry written at
time `t`, a call at time `now` with `now - t < CACHE_TTL` (30 minutes in
milliseconds) returns the cached result with `fetchedAt` overridden to the
original timestamp `t`, emits no progress events, invokes no adapter, and
leaves the cache unchanged; once `CACHE_TTL ≤ now - t` the entry is ignored
at read time and the call equals the full two-tier race. -/
theorem trackAll_cache_policy (cache : List (String × TrackingResult × Nat))
    (value : String) (now t : Nat) (r : TrackingResult)
    (primary deferred : List CarrierRun) (σp σd : List Nat)
    (hl : cacheLookup cache value = some (r, t)) :
    (now - t < CACHE_TTL →
      trackAll cache value now false primary deferred σp σd =
        { res := some (some { r with fetchedAt := some t })
          events := [], invoked := [], cache := cache }) ∧
    (CACHE_TTL ≤ now - t →
      trackAll cache value now false primary deferred σp σd =
        raceTiers cache value now primary deferred σp σd) := by
  constructor <;> intro h
  · have hhit : cacheHit cache value now false = some (r, t) := by
      simp [cacheHit, hl, h]
    unfold trackAll
    rw [hhit]
  · have hhit : cacheHit cache value now false = none := by
      simp [cacheHit, hl]
      omega
    unfold trackAll
    rw [hhit]

/-- C3 witness: a concrete entry written at `t = 100` is served (with
`fetchedAt = 100`, no events, no invocations) at `now = 200`, and at
`now = 100 + CACHE_TTL` the call runs the tier race instead. -/
theorem trackAll_cache_policy_witness :
    (trackAll [("V1", emptyResult, 100)] "V1" 200 false [carrierA] [] [0] []
      = { res := some (some { emptyResult with fetchedAt := some 100 })
          events := [], invoked := []
          cache := [("V1", emptyResult, 100)] }) ∧
    (trackAll [("V1", emptyResult, 100)] "V1" (100 + CACHE_TTL) false
        [carrierA] [] [0] []
      = raceTiers [("V1", emptyResult, 100)] "V1" (100 + CACHE_TTL)
          [carrierA] [] [0] []) := by
  have h := trackAll_cache_policy [("V1", emptyResult, 100)] "V1" 200 100
    emptyResult [carrierA] [] [0] [] (by decide)
  have h2 := trackAll_cache_policy [("V1", emptyResult, 100)] "V1"
    (100 + CACHE_TTL) 100 emptyResult [carrierA] [] [0] [] (by decide)
  exact ⟨h.1 (by decide), h2.2 (by decide)⟩

/-! ## C6: deferred tier policy -/

theorem raceTiers_cases (cache : List (String × TrackingResult × Nat))
    (value : String) (now : Nat) (primary deferred : List CarrierRun)
    (σp σd : List Nat) :
    (raceTiers cache value now primary deferred σp σd).invoked =
      primary.map CarrierRun.id ∨
    ((raceTiers cache value now primary deferred σp σd).invoked =
      primary.map CarrierRun.id ++ deferred.map CarrierRun.id ∧
     (runBatch primary σp now).resolves.head? = some none ∧
     deferred ≠ [] ∧
     (raceTiers cache value now primary deferred σp σd).events =
       (runBatch primary σp now).events ++
         (runBatch deferred σd now).events ∧
     (raceTiers cache value now primary deferred σp σd).res =
       (runBatch deferred σd now).resolves.head?) := by
  cases hh : (runBatch primary σp now).resolves.head? with
  | none =>
    left
    simp only [raceTiers, hh]
  | some pres =>
    by_cases hcond : pres.isSome = true ∨
        (runBatch primary σp now).found.isSome = true ∨
        deferred.isEmpty = true
    · left
      simp only [raceTiers, hh, if_pos hcond]
    · rcases pres with _ | r
      · right
        have hdne : deferred ≠ [] := fun hcontra =>
          hcond (Or.inr (Or.inr (by rw [hcontra]; rfl)))
        refine ⟨?_, rfl, hdne, ?_, ?_⟩ <;>
          simp only [raceTiers, hh, if_neg hcond]
      · exact absurd (Or.inl rfl) hcond

theorem runBatch_success_head (primary : List CarrierRun) (σp : List Nat)
    (now : Nat) (hσp : σp.Perm (List.range primary.length))
    (hex : ∃ c ∈ primary, c.outcome.isSuccess = true) :
    ∃ r, (runBatch primary σp now).resolves.head? = some (some r) := by
  obtain ⟨c, hc, hcs⟩ := hex
  obtain ⟨j, hj, hget⟩ := List.mem_iff_getElem.mp hc
  have hjσ : j ∈ σp := hσp.mem_iff.mpr (List.mem_range.mpr hj)
  have hjs : idxSuccess primary j = true := by
    unfold idxSuccess
    rw [List.getElem?_eq_getElem hj, hget]
    exact hcs
  have hsplit := exists_first_success_split primary σp ⟨j, hjσ, hjs⟩
  obtain ⟨σa, w, σb, cw, r, hs, hw, hwo, hns⟩ := hsplit
  have hva : ∀ i ∈ σa, ∃ c', primary[i]? = some c' ∧
      c'.outcome.isSuccess = false := by
    intro i hi
    have hiσ : i ∈ σp := by rw [hs]; exact List.mem_append_left _ hi
    have hilt : i < primary.length :=
      List.mem_range.mp (hσp.mem_iff.mp hiσ)
    exact idxSuccess_false_elim primary i hilt (hns i hi)
  have hlen : primary.length = (σa ++ w :: σb).length := by
    rw [← hs]
    simpa using hσp.length_eq.symm
  obtain ⟨p, hp⟩ := runBatch_winner primary σa σb w cw r now hlen hva hw hwo
  rw [hs, hp]
  exact ⟨{ r with fetchedAt := some now }, rfl⟩

/-- C6 (confirmed): deferred-tier adapters are invoked only when the primary
batch promise has resolved `null`, which requires every primary adapter to
have settled without a result (the `pending` counter reaches 0 with no
winner); they are never invoked when some primary adapter resolved with a
non-null Result; and when the deferred tier does run, its entire trace
(searching included) comes after the complete primary trace, which contains a
settlement event for every primary adapter — the tiers are never raced
against each other. -/
theorem raceTiers_deferred_policy
    (cache : List (String × TrackingResult × Nat)) (value : String)
    (now : Nat) (primary deferred : List CarrierRun) (σp σd : List Nat)
    (hσp : σp.Perm (List.range primary.length)) :
    ((∃ c ∈ primary, c.outcome.isSuccess = true) →
      (raceTiers cache value now primary deferred σp σd).invoked =
        primary.map CarrierRun.id) ∧
    ((raceTiers cache value now primary deferred σp σd).invoked ≠
        primary.map CarrierRun.id →
      (∀ c ∈ primary, c.outcome.isSuccess = false) ∧
      primary ≠ [] ∧
      (raceTiers cache value now primary deferred σp σd).events =
        (primary.map
            (fun c => (⟨c.id, c.displayName, .searching⟩ : PEvent)) ++
          settleEvts primary σp) ++ (runBatch deferred σd now).events ∧
      (∀ i, i < primary.length → ∀ e ∈ settleEvt primary i,
        e ∈ settleEvts primary σp)) := by
  constructor
  · intro hex
    obtain ⟨r, hr⟩ := runBatch_success_head primary σp now hσp hex
    rcases raceTiers_cases cache value now primary deferred σp σd with
      h | ⟨_, hnull, _, _, _⟩
    · exact h
    · rw [hr] at hnull
      exact absurd (Option.some.injEq _ _ ▸ hnull) (by simp at hnull)
  · intro hne
    rcases raceTiers_cases cache value now primary deferred σp σd with
      h | ⟨_, hnull, _, hevents, _⟩
    · exact absurd h hne
    · have hns : ∀ c ∈ primary, c.outcome.isSuccess = false := by
        intro c hc
        rcases Bool.eq_false_or_eq_true c.outcome.isSuccess with h | h
        · obtain ⟨r, hr⟩ :=
            runBatch_success_head primary σp now hσp ⟨c, hc, h⟩
          rw [hr] at hnull
          simp at hnull
        · exact h
      have hpne : primary ≠ [] := by
        intro hcontra
        subst hcontra
        have hσnil : σp = [] := by
          have := hσp.length_eq
          simp at this
          exact this
        subst hσnil
        have h0 : runBatch [] ([] : List Nat) now =
            { found := none, pending := 0, events := [], resolves := []
              cacheWrite := none } := rfl
        rw [h0] at hnull
        simp at hnull
      refine ⟨hns, hpne, ?_, ?_⟩
      · rw [hevents, runBatch_no_success primary σp now hσp hns hpne]
      · intro i hilt e he
        have hiσ : i ∈ σp := hσp.mem_iff.mpr (List.mem_range.mpr hilt)
        unfold settleEvts
        exact List.mem_flatten.mpr ⟨settleEvt primary i,
          List.mem_map.mpr ⟨i, hiσ, rfl⟩, he⟩

/-- C6 witness: with primary adapters A (null) and B (success) and deferred
adapter C, the deferred tier is not invoked; with primary adapters A (null)
and C-fail (reject) and deferred D (null), the deferred tier runs only after
both primary adapters have settled, and the trace is the full primary trace
followed by the deferred trace. -/
theorem raceTiers_deferred_policy_witness :
    (raceTiers [] "V1" 3 [carrierA, carrierB] [carrierC] [1, 0] [0]).invoked
      = ["ca", "cb"] ∧
    ((raceTiers [] "V1" 3 [carrierA, carrierC] [carrierA] [0, 1] [0]).events
      = ([⟨"ca", "Carrier A", .searching⟩, ⟨"cc", "Carrier C", .searching⟩]
          ++ settleEvts [carrierA, carrierC] [0, 1]) ++
        (runBatch [carrierA] [0] 3).events) := by
  have h1 := (raceTiers_deferred_policy [] "V1" 3 [carrierA, carrierB]
    [carrierC] [1, 0] [0] (by decide)).1
    ⟨carrierB, by decide, by decide⟩
  have h2 := (raceTiers_deferred_policy [] "V1" 3 [carrierA, carrierC]
    [carrierA] [0, 1] [0] (by decide)).2 (by decide)
  exact ⟨h1, h2.2.2.1⟩

/-! ## C8: exhaustion of both tiers and the surfaced message -/

/-- C8 (amended): when every adapter in both tiers rejects or resolves `null`
(all promises settling) and the primary tier is nonempty, `trackAll` resolves
with `null`, and the value-level failure surfaced by the `track-shipment`
handler is the FIXED message `No tracking results found for "<val>". ...` —
identical whichever adapter failed and identical to the all-found-nothing
case.  The frozen claim — that the message reflects the single adapter
failure rather than the adapters that found nothing — fails, see
`trackShipment_message_counterexample`: no adapter error detail survives the
orchestrator boundary (`.catch(() => ...)` discards the error). -/
theorem trackAll_exhausted_message
    (cache : List (String × TrackingResult × Nat)) (raw : String)
    (now : Nat) (primary deferred : List CarrierRun) (σp σd : List Nat)
    (hσp : σp.Perm (List.range primary.length))
    (hσd : σd.Perm (List.range deferred.length))
    (hval : (jsToUpper (jsTrim raw)) ≠ "")
    (hmiss : cacheHit cache (jsToUpper (jsTrim raw)) now false = none)
    (hp : ∀ c ∈ primary, c.outcome.isSuccess = false)
    (hd : ∀ c ∈ deferred, c.outcome.isSuccess = false)
    (hpne : primary ≠ []) :
    (trackAll cache (jsToUpper (jsTrim raw)) now false primary deferred σp σd).res =
      some none ∧
    trackShipmentHandler cache raw now false primary deferred σp σd =
      some (.error (noResultsMessage (jsToUpper (jsTrim raw)))) := by
  have hP := runBatch_no_success primary σp now hσp hp hpne
  have hres : (trackAll cache (jsToUpper (jsTrim raw)) now false primary deferred
      σp σd).res = some none := by
    unfold trackAll
    rw [hmiss]
    unfold raceTiers
    rw [hP]
    cases hdef : deferred with
    | nil => rfl
    | cons d ds =>
      have hD := runBatch_no_success (d :: ds) σd now (hdef ▸ hσd)
        (hdef ▸ hd) (by simp)
      simp only [List.head?]
      rw [if_neg (by simp), hD]
  refine ⟨hres, ?_⟩
  unfold trackShipmentHandler
  rw [if_neg hval, hres]

/-- C8 (counterexample): three primary adapters where exactly one (`ca`)
rejects and the other two resolve `null`, versus the same registry where all
three resolve `null`: the handler surfaces the SAME fixed message in both
runs, and that message does not name the failing adapter — so the value-level
failure message does not reflect the single adapter failure. -/
theorem trackShipment_message_counterexample :
    trackShipmentHandler [] "x1" 0 false
      [{ id := "ca", displayName := "Carrier A", outcome := .failure },
       { id := "cb", displayName := "Carrier B", outcome := .nothing },
       { id := "cc", displayName := "Carrier C", outcome := .nothing }]
      [] [0, 1, 2] [] =
      some (.error ("No tracking results found for \"X1\".\n" ++
        "Please check your tracking number and try again.")) ∧
    trackShipmentHandler [] "x1" 0 false
      [{ id := "ca", displayName := "Carrier A", outcome := .nothing },
       { id := "cb", displayName := "Carrier B", outcome := .nothing },
       { id := "cc", displayName := "Carrier C", outcome := .nothing }]
      [] [0, 1, 2] [] =
      some (.error ("No tracking results found for \"X1\".\n" ++
        "Please check your tracking number and try again.")) := by decide

/-- C8 witness: a concrete exhausted run (one rejecting primary adapter, one
null deferred adapter) resolves `null` and surfaces the fixed message. -/
theorem trackAll_exhausted_message_witness :
    (trackAll [] "X1" 4 false [carrierC] [carrierA] [0] [0]).res =
      some none ∧
    trackShipmentHandler [] "x1" 4 false [carrierC] [carrierA] [0] [0] =
      some (.error (noResultsMessage "X1")) := by
  have h := trackAll_exhausted_message [] "x1" 4 [carrierC] [carrierA]
    [0] [0] (by decide) (by decide) (by decide) (by decide)
    (by decide) (by decide) (by decide)
  exact ⟨h.1, h.2⟩

/-! ## C2 witness -/

/-- A result with two containers carrying nonempty, distinct container
numbers. -/
def c2wit : TrackingResult :=
  { emptyResult with
    carrier := "cosco"
    blNo := "B7"
    portOfLoading := "Shanghai"
    containers :=
      [⟨"ABCU1234567", "40HC", "S1", "", "", "", "", "", "", "", ""⟩,
       ⟨"DEFU7654321", "20GP", "", "", "", "", "", "", "", "", ""⟩]
    events := [⟨"2026-01-01", "Shanghai", "Loaded", "", "", ""⟩] }

/-- C2 witness: `c2wit` satisfies the amended claim's provisos and merging it
with itself returns it unchanged. -/
theorem mergeResults_self_witness :
    (∀ c ∈ c2wit.containers, c.containerNo ≠ "") ∧
    (c2wit.containers.map ContainerInfo.containerNo).Nodup ∧
    mergeResults c2wit c2wit = c2wit :=
  ⟨by decide, by decide, mergeResults_self c2wit (by decide) (by decide)⟩

/-! ## C5: identity resolution -/

theorem findIdx?_eq_some_of (l : List α) (p : α → Bool) :
    ∀ (i : Nat) (x : α), l[i]? = some x → p x = true →
    (∀ k, k < i → ∀ y, l[k]? = some y → p y = false) →
    l.findIdx? p = some i := by
  induction l with
  | nil => intro i x hx _ _; simp at hx
  | cons a l ih =>
    intro i x hx hp hk
    cases i with
    | zero =>
      have hxa : a = x := by simpa using hx
      rw [List.findIdx?_cons, hxa, hp]
      rfl
    | succ i =>
      have h0 : p a = false := hk 0 (Nat.succ_pos _) a (by simp)
      rw [List.findIdx?_cons, h0, if_neg (by simp), List.findIdx?_succ]
      rw [ih i x (by simpa using hx) hp
        (fun k hki y hy => hk (k + 1) (by omega) y (by simpa using hy))]
      rfl

theorem findIdx?_eq_none_of (l : List α) (p : α → Bool)
    (h : ∀ x ∈ l, p x = false) : l.findIdx? p = none := by
  induction l with
  | nil => rfl
  | cons a l ih =>
    rw [List.findIdx?_cons, h a (List.mem_cons_self _ _),
      if_neg (by simp), List.findIdx?_succ]
    rw [ih (fun x hx => h x (List.mem_cons_of_mem _ hx))]
    rfl

/-- C5 (confirmed): for every incoming `(num, result)` pair the candidate
identity is `blNo`, else `trackingNo`, else the raw input (`getShipmentId`);
if the first shipment whose identity equals the candidate exists, that
shipment absorbs the merge in place; otherwise the first shipment (in
collection order) sharing a nonempty container number with the incoming
result absorbs the merge; otherwise a new Tracked Shipment is appended. -/
theorem updateShipments_identity_resolution (pd : String → Option Int)
    (now : Nat) (ss : List TrackedShipment) (num : String)
    (r : TrackingResult) :
    getShipmentId r num =
      (if r.blNo ≠ "" then r.blNo
       else if r.trackingNo ≠ "" then r.trackingNo else num) ∧
    (∀ i sPrev, ss[i]? = some sPrev → sPrev.id = getShipmentId r num →
      (∀ k, k < i → ∀ s', ss[k]? = some s' →
        s'.id ≠ getShipmentId r num) →
      updateShipments pd now ss num r =
        ss.set i (mergedEntry pd now num sPrev r)) ∧
    ((∀ s ∈ ss, s.id ≠ getShipmentId r num) →
      ∀ j sPrev, ss[j]? = some sPrev → overlapsWith r sPrev = true →
      (∀ k, k < j → ∀ s', ss[k]? = some s' →
        overlapsWith r s' = false) →
      updateShipments pd now ss num r =
        ss.set j (mergedEntry pd now num sPrev r)) ∧
    ((∀ s ∈ ss, s.id ≠ getShipmentId r num) →
      (∀ s ∈ ss, overlapsWith r s = false) →
      updateShipments pd now ss num r = ss ++ [freshEntry pd now num r]) := by
  refine ⟨rfl, ?_, ?_, ?_⟩
  · intro i sPrev hi hid hk
    have hfind : ss.findIdx?
        (fun s => decide (s.id = getShipmentId r num)) = some i :=
      findIdx?_eq_some_of ss
        (fun s => decide (s.id = getShipmentId r num)) i sPrev hi
        (by simp [hid])
        (fun k hki y hy => by simp [hk k hki y hy])
    simp only [updateShipments, hfind, hi]
  · intro hnone j sPrev hj hov hk
    have hfind : ss.findIdx?
        (fun s => decide (s.id = getShipmentId r num)) = none :=
      findIdx?_eq_none_of ss _ (fun s hs => by simp [hnone s hs])
    have hcne : containerNos r ≠ [] := by
      unfold overlapsWith at hov
      rcases List.any_eq_true.mp hov with ⟨c, _, hc⟩
      intro hcontra
      rw [hcontra] at hc
      simp at hc
    have hov' : findOverlappingShipment ss r = some j := by
      unfold findOverlappingShipment
      rw [if_neg hcne]
      exact findIdx?_eq_some_of ss _ j sPrev hj hov
        (fun k hki y hy => hk k hki y hy)
    simp only [updateShipments, hfind, hov', hj]
  · intro hnone hnoov
    have hfind : ss.findIdx?
        (fun s => decide (s.id = getShipmentId r num)) = none :=
      findIdx?_eq_none_of ss _ (fun s hs => by simp [hnone s hs])
    have hov' : findOverlappingShipment ss r = none := by
      unfold findOverlappingShipment
      by_cases hc : containerNos r = []
      · rw [if_pos hc]
      · rw [if_neg hc]
        exact findIdx?_eq_none_of ss _ (fun s hs => hnoov s hs)
    simp only [updateShipments, hfind, hov']

/-- Fixtures for the C5 witness: an existing shipment tracked under identity
`B9` holding container `ABCU1234567`. -/
def shipExisting : TrackedShipment where
  id := "B9"
  inputNumber := "N1"
  result := { emptyResult with
    blNo := "B9"
    containers :=
      [⟨"ABCU1234567", "40HC", "", "", "", "", "", "", "", "", ""⟩] }
  etaDate := none
  addedAt := 10
  fetchedAt := 10

/-- An incoming result with a different primary identity but an overlapping
container number. -/
def resOverlap : TrackingResult :=
  { emptyResult with
    trackingNo := "X1"
    containers :=
      [⟨"ABCU1234567", "40HC", "S1", "", "", "", "", "", "", "", ""⟩] }

/-- An incoming result with no identity match and no container overlap. -/
def resFresh : TrackingResult :=
  { emptyResult with
    trackingNo := "X2"
    containers :=
      [⟨"ZZZU0000001", "20GP", "", "", "", "", "", "", "", "", ""⟩] }

/-- C5 witness: the overlap branch (incoming identity `X1` absent, container
`ABCU1234567` shared with the first shipment) merges in place, and the fresh
branch appends a new shipment. -/
theorem updateShipments_identity_resolution_witness :
    updateShipments (fun _ => none) 99 [shipExisting] "X1" resOverlap =
      [shipExisting].set 0
        (mergedEntry (fun _ => none) 99 "X1" shipExisting resOverlap) ∧
    updateShipments (fun _ => none) 99 [shipExisting] "X2" resFresh =
      [shipExisting] ++ [freshEntry (fun _ => none) 99 "X2" resFresh] := by
  have h1 := (updateShipments_identity_resolution (fun _ => none) 99
    [shipExisting] "X1" resOverlap).2.2.1
    (by decide) 0 shipExisting (by decide) (by decide)
    (fun k hk s' hs' => absurd hk (by omega))
  have h2 := (updateShipments_identity_resolution (fun _ => none) 99
    [shipExisting] "X2" resFresh).2.2.2
    (by decide) (by decide)
  exact ⟨h1, h2⟩

/-! ## C9: retry, backoff, and the worker pool -/

/-- C9 (confirmed): each value is attempted at most twice; after a failed
first attempt the trace is exactly attempt 0, a 2000 ms wait, attempt 1; a
second failure contributes exactly one message (`` `${num} — ${msg}` ``) to
the error list; the multi-value pool spawns `min 2 n` workers — never more
than 2, however many values are entered — and draining the queue processes
every queued value exactly once, in queue order, each with the same
single-value retry policy. -/
theorem searchSession_retry_pool (oracle : Nat → Except String TrackingResult)
    (num : String) (orc : String → Nat → Except String TrackingResult)
    (queue : List String) (σ : List Nat) (e0 e1 : String) :
    countAttempts (retryRun oracle num) ≤ 2 ∧
    (oracle 0 = .error e0 →
      (retryRun oracle num).take 3 = [.attempt 0, .wait 2000, .attempt 1]) ∧
    (oracle 0 = .error e0 → oracle 1 = .error e1 →
      retryRun oracle num =
        [.attempt 0, .wait 2000, .attempt 1,
         .pushError (num ++ " — " ++ msgOf e1)] ∧
      errorsOf (retryRun oracle num) = [num ++ " — " ++ msgOf e1]) ∧
    (∀ rr, oracle 0 = .ok rr →
      retryRun oracle num = [.attempt 0, .handled num rr] ∧
      errorsOf (retryRun oracle num) = []) ∧
    workerCount queue.length ≤ 2 ∧
    (queue.length ≤ σ.length →
      (drainRun orc σ queue).map Prod.snd =
        queue.map (fun v => retryRun (orc v) v)) := by
  refine ⟨?_, ?_, ?_, ?_, ?_, ?_⟩
  · unfold retryRun
    cases oracle 0 with
    | ok r => simp [countAttempts]
    | error e =>
      cases oracle 1 with
      | ok r => simp [countAttempts]
      | error e' => simp [countAttempts]
  · intro h0
    unfold retryRun
    rw [h0]
    cases oracle 1 <;> rfl
  · intro h0 h1
    unfold retryRun
    rw [h0, h1]
    exact ⟨rfl, rfl⟩
  · intro rr h0
    unfold retryRun
    rw [h0]
    exact ⟨rfl, rfl⟩
  · unfold workerCount
    omega
  · intro hle
    unfold drainRun
    rw [List.map_map]
    have : ∀ σ' (q : List String), q.length ≤ σ'.length →
        (drainAssign σ' q).map (Prod.snd ∘
          fun p => (p.1, retryRun (orc p.2) p.2)) =
          q.map (fun v => retryRun (orc v) v) := by
      intro σ'
      induction σ' with
      | nil =>
        intro q hq
        cases q with
        | nil => rfl
        | cons v q' => simp at hq
      | cons w σ' ih =>
        intro q hq
        cases q with
        | nil => rfl
        | cons v q' =>
          simp only [drainAssign, List.map_cons]
          rw [ih q' (by simpa using hq)]
          rfl
    exact this σ queue hle

/-- C9 witness: a twice-failing oracle produces the exact
attempt-wait-attempt-error trace with one error message, and a three-value
queue drained by schedule `[0, 1, 0]` (pool of `min 2 3 = 2` workers)
processes all three values in order. -/
theorem searchSession_retry_pool_witness :
    countAttempts (retryRun (fun _ => .error "boom") "V1") ≤ 2 ∧
    retryRun (fun _ => .error "boom") "V1" =
      [.attempt 0, .wait 2000, .attempt 1, .pushError "V1 — boom"] ∧
    errorsOf (retryRun (fun _ => .error "boom") "V1") = ["V1 — boom"] ∧
    workerCount 3 ≤ 2 ∧
    (drainRun (fun _ _ => .error "boom") [0, 1, 0]
        ["V1", "V2", "V3"]).map Prod.snd =
      ["V1", "V2", "V3"].map
        (fun v => retryRun ((fun _ _ => .error "boom") v) v) := by
  have h := searchSession_retry_pool (fun _ => .error "boom") "V1"
    (fun _ _ => .error "boom") ["V1", "V2", "V3"] [0, 1, 0] "boom" "boom"
  refine ⟨h.1, ?_, ?_, h.2.2.2.2.1, h.2.2.2.2.2 (by decide)⟩
  · exact (h.2.2.1 rfl rfl).1
  · exact (h.2.2.1 rfl rfl).2

end ShipTrack
